import Mathlib

/-!
Shallow embedding of the file-api-microservice storage core.

The embedding follows src/pathUtils.js (name validation, public-URL
construction) and src/routes.js (the seven storage operations).  The
filesystem is modelled as two association lists, one per physical root
(public and private); each folder maps to a flat list of files, each
file to its byte content.  All definitions are executable and mirror
the JavaScript control flow branch by branch.
-/

namespace FileApi

/-- Byte content of a stored file. -/
abbrev Bytes := List Nat

/-- Character class of the safe-name regex in pathUtils.js:
`/^[a-zA-Z0-9_-]+$/` admits ASCII letters, digits, underscore, hyphen. -/
def isSafeChar (c : Char) : Bool :=
  ('a' ≤ c && c ≤ 'z') || ('A' ≤ c && c ≤ 'Z') || ('0' ≤ c && c ≤ '9') ||
    c == '_' || c == '-'

/-- Test of the whole safe-name regex: nonempty and every character safe. -/
def grammarOk (s : String) : Bool :=
  !s.data.isEmpty && s.data.all isSafeChar

/-- List-level test that the second list begins with the first. -/
def startsWithList : List Char → List Char → Bool
  | [], _ => true
  | _ :: _, [] => false
  | p :: ps, c :: cs => p == c && startsWithList ps cs

/-- List-level substring occurrence test (JS String.includes). -/
def occursIn (pat : List Char) : List Char → Bool
  | [] => startsWithList pat []
  | c :: cs => startsWithList pat (c :: cs) || occursIn pat cs

/-- String substring containment, as used for the parent-reference check. -/
def sContains (s pat : String) : Bool := occursIn pat.data s.data

/-- String starts-with, as used for the hidden-file check. -/
def sStarts (s pat : String) : Bool := startsWithList pat.data s.data

/-- Model of path.isAbsolute on the POSIX container filesystem. -/
def isAbsolute (s : String) : Bool := sStarts s "/"

/-- Portion of a filename before its first dot (JS split on dot, index 0). -/
def preDot (s : String) : String := ⟨s.data.takeWhile (fun c => c != '.')⟩

/-- JS truthiness of an optional string: present and nonempty. -/
def truthy : Option String → Bool
  | none => false
  | some s => !s.data.isEmpty

/-- Result record of validatePath: the validated folder and optional filename. -/
structure SafeName where
  folder : String
  filename : Option String
deriving Repr, DecidableEq

deriving instance DecidableEq for Except

/-- Embedding of validatePath from src/pathUtils.js, branch by branch.
The inner check producing the message about a required filename is kept
from the source even though it sits under a truthiness guard on the same
value. -/
def validatePath (folder : String) (filename : Option String) : Except String SafeName :=
  if folder.data.isEmpty then
    .error "Folder name is required"
  else if isAbsolute folder || sContains folder ".." || sStarts folder "." then
    .error "Invalid folder path"
  else if !grammarOk folder then
    .error "Invalid folder name"
  else
    match filename with
    | some fn =>
      if !fn.data.isEmpty then
        if fn.data.isEmpty then
          .error "Filename is required"
        else if isAbsolute fn || sContains fn ".." || sStarts fn "." then
          .error "Invalid file path"
        else if !grammarOk (preDot fn) then
          .error "Invalid filename"
        else
          .ok ⟨folder, some fn⟩
      else
        .ok ⟨folder, none⟩
    | none => .ok ⟨folder, none⟩

/-- Embedding of buildPublicUrl from src/pathUtils.js, with the configured
base URL passed explicitly. -/
def buildPublicUrl (base folder : String) (filename : Option String) : String :=
  match filename with
  | some fn => base ++ "/public/" ++ folder ++ "/" ++ fn
  | none => base ++ "/public/" ++ folder ++ "/"

/-- Acceptance condition for a provided filename (derived below as the
exact acceptance domain of the filename checks). -/
def fnameOk (n : String) : Bool :=
  !n.data.isEmpty && !sContains n ".." && !sStarts n "." && grammarOk (preDot n)

/-- Boolean success test of validatePath. -/
def validOk (f : String) (n : Option String) : Bool :=
  match validatePath f n with
  | .ok _ => true
  | .error _ => false

example : validatePath "docs" (some "a.txt") = .ok ⟨"docs", some "a.txt"⟩ := by decide
example : validatePath "docs" (some "a..b") = .error "Invalid file path" := by decide
example : validOk "docs" (some "a.b/c") = true := by decide
example : validatePath "a b" none = .error "Invalid folder name" := by decide
example : validatePath "" none = .error "Folder name is required" := by decide
example : validatePath "/etc" none = .error "Invalid folder path" := by decide

/-- Lookup in an association list keyed by strings. -/
def alGet {α : Type} (l : List (String × α)) (k : String) : Option α :=
  match l with
  | [] => none
  | p :: rest => if p.1 = k then some p.2 else alGet rest k

/-- Insert or overwrite a key in an association list. -/
def alSet {α : Type} (l : List (String × α)) (k : String) (v : α) : List (String × α) :=
  match l with
  | [] => [(k, v)]
  | p :: rest => if p.1 = k then (k, v) :: rest else p :: alSet rest k v

/-- Delete a key from an association list. -/
def alDel {α : Type} (l : List (String × α)) (k : String) : List (String × α) :=
  match l with
  | [] => []
  | p :: rest => if p.1 = k then alDel rest k else p :: alDel rest k

/-- Contents of one folder: filename to byte content, flat (no nesting),
matching the disk layout contract. -/
abbrev DirT := List (String × Bytes)

/-- One physical root: folder name to folder contents. -/
abbrev RootT := List (String × DirT)

/-- The two physical trees backing all storage: the public (exposed) root
and the private (hidden) root. -/
structure FS where
  pubRoot : RootT
  privRoot : RootT
deriving Repr, DecidableEq

/-- Existence of a folder in a root (fs.pathExists on the folder path). -/
def folderHas (r : RootT) (f : String) : Bool := (alGet r f).isSome

/-- Existence of a file in a root (fs.pathExists on the file path). -/
def fileHas (r : RootT) (f n : String) : Bool :=
  match alGet r f with
  | some d => (alGet d n).isSome
  | none => false

/-- fs.ensureDir on a folder path: create the folder if absent, keep its
contents if present. -/
def ensureDirAt (r : RootT) (f : String) : RootT :=
  match alGet r f with
  | some _ => r
  | none => alSet r f []

/-- fs.writeFile under ensureDir: write bytes at folder/name, creating the
folder if needed and overwriting any existing file. -/
def writeFileAt (r : RootT) (f n : String) (b : Bytes) : RootT :=
  alSet r f (alSet ((alGet r f).getD []) n b)

/-- fs.remove on a file path: delete the file, keeping the folder. -/
def removeFileAt (r : RootT) (f n : String) : RootT :=
  match alGet r f with
  | some d => alSet r f (alDel d n)
  | none => r

/-- fs.move of folder/src onto folder/dst within one root with overwrite:
the source entry is removed and its content stored under the destination
name, replacing any existing destination file. -/
def moveFileAt (r : RootT) (f src dst : String) : RootT :=
  match alGet r f with
  | some d =>
    match alGet d src with
    | some content => alSet r f (alSet (alDel d src) dst content)
    | none => r
  | none => r

/-- Visibility of a stored item: reachable through the public root or not. -/
inductive Vis where
  | exposed
  | hidden
deriving Repr, DecidableEq

/-- Entry of a folder listing: file name and byte size (modification time
is not modelled). -/
structure FileInfo where
  name : String
  size : Nat
deriving Repr, DecidableEq

/-- Entry of a root listing: folder name, visibility tag, optional URL. -/
structure FolderInfo where
  name : String
  visibility : Vis
  url : Option String
deriving Repr, DecidableEq

/-- Success envelope of the routes: visibility, url, folder, file plus the
listing payloads (empty lists when the route returns none). -/
structure OkResp where
  visibility : Option Vis
  url : Option String
  folder : Option String
  file : Option String
  files : List FileInfo
  folders : List FolderInfo
deriving Repr, DecidableEq

/-- Error envelope: a 400-class message or a 404 message. -/
inductive ApiErr where
  | badRequest : String → ApiErr
  | notFound : String → ApiErr
deriving Repr, DecidableEq

/-- Embedding of the upload route (storeFile): validate, pick the root from
the expose flag, ensureDir plus writeFile there, report visibility and URL.
The route rejects a missing folder or filename before validation. -/
def storeFile (fs : FS) (base folder fn : String) (bytes : Bytes) (expose : Bool) :
    FS × Except ApiErr OkResp :=
  if folder.data.isEmpty || fn.data.isEmpty then
    (fs, .error (.badRequest "Missing required fields: folder, filename, base64"))
  else
    match validatePath folder (some fn) with
    | .error m => (fs, .error (.badRequest m))
    | .ok sn =>
      let sf := sn.folder
      let sfn := sn.filename.getD fn
      let fs2 : FS :=
        if expose then { fs with pubRoot := writeFileAt fs.pubRoot sf sfn bytes }
        else { fs with privRoot := writeFileAt fs.privRoot sf sfn bytes }
      let vis := if expose then Vis.exposed else Vis.hidden
      let url := if expose then some (buildPublicUrl base sf (some sfn)) else none
      (fs2, .ok ⟨some vis, url, some sf, some sfn, [], []⟩)

/-- Embedding of the mkdir route (createFolder): validate, ensureDir in the
root picked by the expose flag. -/
def createFolder (fs : FS) (base folder : String) (expose : Bool) :
    FS × Except ApiErr OkResp :=
  if folder.data.isEmpty then
    (fs, .error (.badRequest "Folder name is required"))
  else
    match validatePath folder none with
    | .error m => (fs, .error (.badRequest m))
    | .ok sn =>
      let sf := sn.folder
      let fs2 : FS :=
        if expose then { fs with pubRoot := ensureDirAt fs.pubRoot sf }
        else { fs with privRoot := ensureDirAt fs.privRoot sf }
      let vis := if expose then Vis.exposed else Vis.hidden
      let url := if expose then some (buildPublicUrl base sf none) else none
      (fs2, .ok ⟨some vis, url, some sf, none, [], []⟩)

/-- Embedding of the delete route.  With a filename the route probes the
public path, else the private path, and removes the single file it found
(if or else-if).  Without a filename it removes the folder from the public
root if present and from the private root if present (two independent ifs),
and reports 404 only when neither held it. -/
def deleteItem (fs : FS) (folder : String) (filename : Option String) :
    FS × Except ApiErr OkResp :=
  if truthy filename then
    match validatePath folder filename with
    | .error m => (fs, .error (.badRequest m))
    | .ok sn =>
      let sf := sn.folder
      let sfn := sn.filename.getD ""
      if fileHas fs.pubRoot sf sfn then
        ({ fs with pubRoot := removeFileAt fs.pubRoot sf sfn },
         .ok ⟨some .hidden, none, some sf, some sfn, [], []⟩)
      else if fileHas fs.privRoot sf sfn then
        ({ fs with privRoot := removeFileAt fs.privRoot sf sfn },
         .ok ⟨some .hidden, none, some sf, some sfn, [], []⟩)
      else
        (fs, .error (.notFound "File not found"))
  else
    match validatePath folder none with
    | .error m => (fs, .error (.badRequest m))
    | .ok sn =>
      let sf := sn.folder
      let pubHas := folderHas fs.pubRoot sf
      let fs1 : FS := if pubHas then { fs with pubRoot := alDel fs.pubRoot sf } else fs
      let privHas := folderHas fs1.privRoot sf
      let fs2 : FS := if privHas then { fs1 with privRoot := alDel fs1.privRoot sf } else fs1
      if pubHas || privHas then
        (fs2, .ok ⟨some .hidden, none, some sf, none, [], []⟩)
      else
        (fs2, .error (.notFound "Folder not found"))

/-- Embedding of the expose route: probe the private root first; when the
folder is there, fs.move it onto the public root with overwrite; otherwise
succeed as a no-op when it is already public; otherwise 404. -/
def exposeFolder (fs : FS) (base folder : String) : FS × Except ApiErr OkResp :=
  match validatePath folder none with
  | .error m => (fs, .error (.badRequest m))
  | .ok sn =>
    let sf := sn.folder
    match alGet fs.privRoot sf with
    | some d =>
      (⟨alSet fs.pubRoot sf d, alDel fs.privRoot sf⟩,
       .ok ⟨some .exposed, some (buildPublicUrl base sf none), some sf, none, [], []⟩)
    | none =>
      if folderHas fs.pubRoot sf then
        (fs, .ok ⟨some .exposed, some (buildPublicUrl base sf none), some sf, none, [], []⟩)
      else
        (fs, .error (.notFound "Folder not found"))

/-- Embedding of the unexpose route: probe the public root first; when the
folder is there, fs.move it onto the private root with overwrite; otherwise
succeed as a no-op when it is already private; otherwise 404. -/
def unexposeFolder (fs : FS) (base folder : String) : FS × Except ApiErr OkResp :=
  match validatePath folder none with
  | .error m => (fs, .error (.badRequest m))
  | .ok sn =>
    let sf := sn.folder
    match alGet fs.pubRoot sf with
    | some d =>
      (⟨alDel fs.pubRoot sf, alSet fs.privRoot sf d⟩,
       .ok ⟨some .hidden, none, some sf, none, [], []⟩)
    | none =>
      if folderHas fs.privRoot sf then
        (fs, .ok ⟨some .hidden, none, some sf, none, [], []⟩)
      else
        (fs, .error (.notFound "Folder not found"))

/-- Kind selector of the rename route. -/
inductive RKind where
  | file
  | folder
deriving Repr, DecidableEq

/-- Embedding of the rename route.  Both branches probe the public root
first and move within the root where the item was found; fs-extra rejects a
move whose source and destination coincide, which the route surfaces as a
400 with that library message. -/
def renameItem (fs : FS) (base : String) (kind : RKind) (folder : String)
    (filename : Option String) (newName : String) : FS × Except ApiErr OkResp :=
  if folder.data.isEmpty || newName.data.isEmpty then
    (fs, .error (.badRequest "Missing required fields: type, folder, newName"))
  else
    match kind with
    | .file =>
      if !truthy filename then
        (fs, .error (.badRequest "Filename is required when type is \"file\""))
      else
        match validatePath folder filename with
        | .error m => (fs, .error (.badRequest m))
        | .ok sn =>
          match validatePath folder (some newName) with
          | .error m => (fs, .error (.badRequest m))
          | .ok sn2 =>
            let sf := sn.folder
            let sfn := sn.filename.getD ""
            let snew := sn2.filename.getD ""
            if fileHas fs.pubRoot sf sfn then
              if sfn = snew then
                (fs, .error (.badRequest "Source and destination must not be the same."))
              else
                ({ fs with pubRoot := moveFileAt fs.pubRoot sf sfn snew },
                 .ok ⟨some .exposed, some (buildPublicUrl base sf (some snew)),
                      some sf, some snew, [], []⟩)
            else if fileHas fs.privRoot sf sfn then
              if sfn = snew then
                (fs, .error (.badRequest "Source and destination must not be the same."))
              else
                ({ fs with privRoot := moveFileAt fs.privRoot sf sfn snew },
                 .ok ⟨some .hidden, none, some sf, some snew, [], []⟩)
            else
              (fs, .error (.notFound "File not found"))
    | .folder =>
      match validatePath folder none with
      | .error m => (fs, .error (.badRequest m))
      | .ok sn =>
        match validatePath newName none with
        | .error m => (fs, .error (.badRequest m))
        | .ok sn2 =>
          let sf := sn.folder
          let snew := sn2.folder
          match alGet fs.pubRoot sf with
          | some d =>
            if sf = snew then
              (fs, .error (.badRequest "Source and destination must not be the same."))
            else
              ({ fs with pubRoot := alSet (alDel fs.pubRoot sf) snew d },
               .ok ⟨some .exposed, some (buildPublicUrl base snew none),
                    some snew, none, [], []⟩)
          | none =>
            match alGet fs.privRoot sf with
            | some d =>
              if sf = snew then
                (fs, .error (.badRequest "Source and destination must not be the same."))
              else
                ({ fs with privRoot := alSet (alDel fs.privRoot sf) snew d },
                 .ok ⟨some .hidden, none, some snew, none, [], []⟩)
            | none =>
              (fs, .error (.notFound "Folder not found"))

/-- Embedding of the list-folder route: probe the public root first, then
the private root; report the found root's files with their sizes, its
visibility and URL; 404 when neither root holds the folder. -/
def listFolder (fs : FS) (base folder : String) : Except ApiErr OkResp :=
  match validatePath folder none with
  | .error m => .error (.badRequest m)
  | .ok sn =>
    let sf := sn.folder
    match alGet fs.pubRoot sf with
    | some d =>
      .ok ⟨some .exposed, some (buildPublicUrl base sf none), some sf, none,
           d.map (fun p => ⟨p.1, p.2.length⟩), []⟩
    | none =>
      match alGet fs.privRoot sf with
      | some d =>
        .ok ⟨some .hidden, none, some sf, none,
             d.map (fun p => ⟨p.1, p.2.length⟩), []⟩
      | none => .error (.notFound "Folder not found")

/-- Membership of a name in the accumulated root-listing map. -/
def hasName (m : List FolderInfo) (n : String) : Bool :=
  m.any (fun g => g.name == n)

/-- JS Map.set: replace the value at an existing key in place, append a new
key at the end. -/
def mapSet (m : List FolderInfo) (f : FolderInfo) : List FolderInfo :=
  match m with
  | [] => [f]
  | g :: rest => if g.name = f.name then f :: rest else g :: mapSet rest f

/-- One step of the root-listing deduplication: set the entry when the name
is new or the entry is exposed, else keep the map unchanged. -/
def mapStep (m : List FolderInfo) (f : FolderInfo) : List FolderInfo :=
  if !hasName m f.name || f.visibility == Vis.exposed then mapSet m f else m

/-- Embedding of the list route (listRoot): tag public folders exposed with
URLs and private folders hidden, concatenate public first, then fold the
Map-based deduplication in which public entries take precedence. -/
def listRoot (fs : FS) (base : String) : Except ApiErr OkResp :=
  let pubFolders := fs.pubRoot.map
    (fun p => FolderInfo.mk p.1 Vis.exposed (some (buildPublicUrl base p.1 none)))
  let privFolders := fs.privRoot.map
    (fun p => FolderInfo.mk p.1 Vis.hidden none)
  let allFolders := pubFolders ++ privFolders
  let folderList := allFolders.foldl mapStep []
  .ok ⟨none, none, none, none, [], folderList⟩

/-- Embedding of the public file-serving route: validate, then read the
file from the public root only; 404 when it is not there. -/
def servePublicFile (fs : FS) (folder fn : String) : Except ApiErr Bytes :=
  match validatePath folder (some fn) with
  | .error m => .error (.badRequest m)
  | .ok sn =>
    let sf := sn.folder
    let sfn := sn.filename.getD fn
    match alGet fs.pubRoot sf with
    | some d =>
      match alGet d sfn with
      | some b => .ok b
      | none => .error (.notFound "File not found")
    | none => .error (.notFound "File not found")

/-- ItemResolver for files, as inlined identically in the delete and rename
routes: exposed root first, then hidden, else NotFound. -/
def resolveFile (fs : FS) (f n : String) : Option Vis :=
  if fileHas fs.pubRoot f n then some .exposed
  else if fileHas fs.privRoot f n then some .hidden
  else none

/-- ItemResolver for folders, as inlined in the rename and list routes:
exposed root first, then hidden, else NotFound. -/
def resolveFolder (fs : FS) (f : String) : Option Vis :=
  if folderHas fs.pubRoot f then some .exposed
  else if folderHas fs.privRoot f then some .hidden
  else none

/-- Visibility field of a successful response, none on error. -/
def respVis : Except ApiErr OkResp → Option (Option Vis)
  | .ok r => some r.visibility
  | .error _ => none

theorem alGet_alSet_self {α : Type} (l : List (String × α)) (k : String) (v : α) :
    alGet (alSet l k v) k = some v := by
  induction l with
  | nil => simp [alGet, alSet]
  | cons p rest ih =>
    by_cases h : p.1 = k
    · simp [alSet, h, alGet]
    · simp [alSet, h, alGet, ih]

theorem alGet_alSet_ne {α : Type} (l : List (String × α)) (k k' : String) (v : α)
    (h : k' ≠ k) : alGet (alSet l k v) k' = alGet l k' := by
  have hk : ¬ k = k' := Ne.symm h
  induction l with
  | nil => simp [alGet, alSet, hk]
  | cons p rest ih =>
    by_cases hp : p.1 = k
    · simp [alSet, hp, alGet, hk]
    · simp only [alSet, hp, if_false, alGet, ih]

theorem alGet_alDel_self {α : Type} (l : List (String × α)) (k : String) :
    alGet (alDel l k) k = none := by
  induction l with
  | nil => simp [alGet, alDel]
  | cons p rest ih =>
    by_cases h : p.1 = k
    · simp [alDel, h, ih]
    · simp [alDel, h, alGet, ih]

theorem alGet_alDel_ne {α : Type} (l : List (String × α)) (k k' : String)
    (h : k' ≠ k) : alGet (alDel l k) k' = alGet l k' := by
  induction l with
  | nil => simp [alGet, alDel]
  | cons p rest ih =>
    have hk : ¬ k = k' := Ne.symm h
    by_cases hp : p.1 = k
    · simp [alDel, hp, alGet, hk, ih]
    · simp only [alDel, hp, if_false, alGet, ih]

theorem all_safe_of_grammar {s : String} (h : grammarOk s = true) :
    ∀ c ∈ s.data, isSafeChar c = true := by
  have h2 := (Bool.and_eq_true _ _).mp h
  exact fun c hc => List.all_eq_true.mp h2.2 c hc

theorem not_mem_of_unsafe {s : String} (h : grammarOk s = true) (c : Char)
    (hc : isSafeChar c = false) : c ∉ s.data := by
  intro hmem
  have := all_safe_of_grammar h c hmem
  rw [hc] at this
  cases this

theorem startsWithList_head {c : Char} {cs l : List Char}
    (h : startsWithList (c :: cs) l = true) : ∃ t, l = c :: t := by
  cases l with
  | nil => cases h
  | cons a t =>
    refine ⟨t, ?_⟩
    have := (Bool.and_eq_true _ _).mp h
    have hc : c = a := by
      have := this.1
      simpa [beq_iff_eq] using this
    rw [hc]

theorem mem_of_occursIn {c : Char} {cs l : List Char}
    (h : occursIn (c :: cs) l = true) : c ∈ l := by
  induction l with
  | nil => cases h
  | cons a t ih =>
    rw [occursIn] at h
    rcases (Bool.or_eq_true _ _).mp h with h1 | h2
    · obtain ⟨t2, ht⟩ := startsWithList_head h1
      rw [(List.cons.injEq _ _ _ _).mp ht |>.1.symm]
      exact List.mem_cons_self _ _
    · exact List.mem_cons_of_mem _ (ih h2)

theorem sStarts_dot_false {s : String} (h : grammarOk s = true) :
    sStarts s "." = false := by
  cases hb : sStarts s "." with
  | false => rfl
  | true =>
    exfalso
    obtain ⟨t, ht⟩ := startsWithList_head (by simpa [sStarts] using hb)
    exact not_mem_of_unsafe h '.' (by decide) (ht ▸ List.mem_cons_self _ _)

theorem sContains_dots_false {s : String} (h : grammarOk s = true) :
    sContains s ".." = false := by
  cases hb : sContains s ".." with
  | false => rfl
  | true =>
    exfalso
    exact not_mem_of_unsafe h '.' (by decide)
      (mem_of_occursIn (by simpa [sContains] using hb))

theorem isAbsolute_false_of_grammar {s : String} (h : grammarOk s = true) :
    isAbsolute s = false := by
  cases hb : isAbsolute s with
  | false => rfl
  | true =>
    exfalso
    obtain ⟨t, ht⟩ := startsWithList_head (by simpa [isAbsolute, sStarts] using hb)
    exact not_mem_of_unsafe h '/' (by decide) (ht ▸ List.mem_cons_self _ _)

theorem grammar_nonempty {s : String} (h : grammarOk s = true) :
    s.data.isEmpty = false := by
  have := (Bool.and_eq_true _ _).mp h
  simpa using this.1

theorem validatePath_none_ok {f : String} (h : grammarOk f = true) :
    validatePath f none = .ok ⟨f, none⟩ := by
  unfold validatePath
  rw [grammar_nonempty h, isAbsolute_false_of_grammar h, sContains_dots_false h,
    sStarts_dot_false h, h]
  simp

theorem preDot_data (n : String) :
    (preDot n).data = n.data.takeWhile (fun c => c != '.') := rfl

theorem isAbsolute_false_of_preDot {n : String} (h : grammarOk (preDot n) = true) :
    isAbsolute n = false := by
  cases hb : isAbsolute n with
  | false => rfl
  | true =>
    exfalso
    obtain ⟨t, ht⟩ := startsWithList_head (by simpa [isAbsolute, sStarts] using hb)
    have hmem : '/' ∈ (preDot n).data := by
      rw [preDot_data, ht]
      simp [List.takeWhile]
    exact not_mem_of_unsafe h '/' (by decide) hmem

theorem validatePath_some_ok {f n : String} (hf : grammarOk f = true)
    (hn : fnameOk n = true) : validatePath f (some n) = .ok ⟨f, some n⟩ := by
  have p1 := (Bool.and_eq_true _ _).mp hn
  have p2 := (Bool.and_eq_true _ _).mp p1.1
  have p3 := (Bool.and_eq_true _ _).mp p2.1
  have h1 : n.data.isEmpty = false := by simpa using p3.1
  have h2 : sContains n ".." = false := by simpa using p3.2
  have h3 : sStarts n "." = false := by simpa using p2.2
  have h4 : grammarOk (preDot n) = true := p1.2
  unfold validatePath
  rw [grammar_nonempty hf, isAbsolute_false_of_grammar hf, sContains_dots_false hf,
    sStarts_dot_false hf, hf]
  simp only [Bool.not_true, Bool.false_or, if_false, Bool.or_self, Bool.or_false]
  rw [h1, isAbsolute_false_of_preDot h4, h2, h3, h4]
  simp

theorem validOk_none_eq (f : String) : validOk f none = grammarOk f := by
  cases hg : grammarOk f with
  | true => rw [validOk, validatePath_none_ok hg]
  | false =>
    cases h1 : f.data.isEmpty with
    | true => simp [validOk, validatePath, h1]
    | false =>
      cases h2 : (isAbsolute f || sContains f ".." || sStarts f ".") with
      | true => simp [validOk, validatePath, h1, h2]
      | false => simp [validOk, validatePath, h1, h2, hg]

theorem validOk_some_eq (f n : String) :
    validOk f (some n) =
      (grammarOk f &&
        (n.data.isEmpty ||
          (!sContains n ".." && !sStarts n "." && grammarOk (preDot n)))) := by
  cases hg : grammarOk f with
  | false =>
    cases h1 : f.data.isEmpty with
    | true => simp [validOk, validatePath, h1, hg]
    | false =>
      cases h2 : (isAbsolute f || sContains f ".." || sStarts f ".") with
      | true => simp [validOk, validatePath, h1, h2, hg]
      | false => simp [validOk, validatePath, h1, h2, hg]
  | true =>
    have e1 := grammar_nonempty hg
    have e2 := isAbsolute_false_of_grammar hg
    have e3 := sContains_dots_false hg
    have e4 := sStarts_dot_false hg
    cases he : n.data.isEmpty with
    | true => simp [validOk, validatePath, e1, e2, e3, e4, hg, he]
    | false =>
      cases h2 : sContains n ".." with
      | true => simp [validOk, validatePath, e1, e2, e3, e4, hg, he, h2]
      | false =>
        cases h3 : sStarts n "." with
        | true => simp [validOk, validatePath, e1, e2, e3, e4, hg, he, h2, h3]
        | false =>
          cases h4 : grammarOk (preDot n) with
          | true =>
            have ha := isAbsolute_false_of_preDot h4
            simp [validOk, validatePath, e1, e2, e3, e4, hg, he, h2, h3, h4, ha]
          | false =>
            cases ha : isAbsolute n with
            | true => simp [validOk, validatePath, e1, e2, e3, e4, hg, he, h2, h3, ha, h4]
            | false => simp [validOk, validatePath, e1, e2, e3, e4, hg, he, h2, h3, ha, h4]

/-- C2 (counterexample): the claim fails in both directions at concrete
inputs.  The filename a..b matches the grammar in its portion before the
first dot, yet validatePath rejects it (the parent-reference check runs on
the whole string); the filename a.b/c contains a path separator, yet
validatePath accepts it (the separator sits after the first dot, where only
the parent-reference and leading-dot checks apply). -/
theorem validate_grammar_claim_counterexample :
    (grammarOk (preDot "a..b") = true
      ∧ validatePath "docs" (some "a..b") = .error "Invalid file path")
    ∧ (sContains "a.b/c" "/" = true ∧ validOk "docs" (some "a.b/c") = true) := by
  decide

/-- C2 (amended): exact acceptance characterization of validatePath.  A
folder-only call accepts exactly the strings matching the grammar.  A call
with a filename accepts exactly when the folder matches the grammar and the
filename is either empty (treated as absent) or contains no parent
reference anywhere, does not start with a dot, and matches the grammar in
its portion before the first dot; characters after the first dot, path
separators included, are not otherwise restricted. -/
theorem validate_grammar_amended (f n : String) :
    validOk f none = grammarOk f
    ∧ validOk f (some n) =
        (grammarOk f &&
          (n.data.isEmpty ||
            (!sContains n ".." && !sStarts n "." && grammarOk (preDot n)))) :=
  ⟨validOk_none_eq f, validOk_some_eq f n⟩

/-- Auxiliary: the cause with the message about a required filename is
unreachable: the check sits inside a truthiness guard on the same value,
so no input whatsoever produces this message. -/
theorem filename_required_unreachable :
    ∀ (f : String) (n : Option String),
      validatePath f n ≠ .error "Filename is required" := by
  intro f n
  unfold validatePath
  repeat' split
  all_goals simp_all

/-- Auxiliary: every rejection by validatePath yields exactly one of five
stable messages (folder required, invalid folder path, invalid folder
name, invalid file path, invalid filename), each of which is producible;
the sixth message of the source, about a required filename, is dead code. -/
theorem validate_error_messages_amended :
    (validatePath "" none = .error "Folder name is required"
      ∧ validatePath "/etc" none = .error "Invalid folder path"
      ∧ validatePath "a b" none = .error "Invalid folder name"
      ∧ validatePath "docs" (some "/x") = .error "Invalid file path"
      ∧ validatePath "docs" (some "b b.txt") = .error "Invalid filename")
    ∧ ∀ (f : String) (n : Option String) (m : String),
        validatePath f n = .error m →
          m = "Folder name is required" ∨ m = "Invalid folder path"
            ∨ m = "Invalid folder name" ∨ m = "Invalid file path"
            ∨ m = "Invalid filename" := by
  constructor
  · decide
  · intro f n m h
    unfold validatePath at h
    repeat' split at h
    all_goals simp_all

theorem validate_error_messages_amended_witness :
    "Invalid folder name" = "Folder name is required"
      ∨ "Invalid folder name" = "Invalid folder path"
      ∨ "Invalid folder name" = "Invalid folder name"
      ∨ "Invalid folder name" = "Invalid file path"
      ∨ "Invalid folder name" = "Invalid filename" :=
  validate_error_messages_amended.2 "a b" none "Invalid folder name" (by decide)

/-- C8 (code_bug): the required-filename cause is dead code.  At the
natural failing input — an empty filename — validatePath silently treats
the filename as absent and succeeds instead of producing the message about
a required filename; the other five causes are each producible at the
inputs shown. -/
theorem filename_required_dead_branch :
    validatePath "docs" (some "") = .ok ⟨"docs", none⟩
    ∧ validatePath "" none = .error "Folder name is required"
    ∧ validatePath "/etc" none = .error "Invalid folder path"
    ∧ validatePath "a b" none = .error "Invalid folder name"
    ∧ validatePath "docs" (some "/x") = .error "Invalid file path"
    ∧ validatePath "docs" (some "b b.txt") = .error "Invalid filename" := by
  decide

/-- C9 (confirmed): validatePath is the identity on its accepted domain.
Whenever it returns a result, the returned folder is the input folder and,
for every provided nonempty filename, the returned filename is that exact
string: no normalization, trimming or rewriting is applied. -/
theorem validate_identity_on_accept (f : String) (n : Option String) (r : SafeName)
    (h : validatePath f n = .ok r) :
    r.folder = f ∧ ∀ s, n = some s → s.data.isEmpty = false → r.filename = some s := by
  unfold validatePath at h
  repeat' split at h
  all_goals cases h
  all_goals simp_all

theorem ensureDirAt_has (r : RootT) (f : String) :
    folderHas (ensureDirAt r f) f = true := by
  unfold ensureDirAt folderHas
  cases h : alGet r f with
  | some d => simp [h]
  | none => simp [alGet_alSet_self]

theorem writeFileAt_has (r : RootT) (f n : String) (b : Bytes) :
    folderHas (writeFileAt r f n b) f = true := by
  simp [writeFileAt, folderHas, alGet_alSet_self]

theorem fnameOk_nonempty {n : String} (hn : fnameOk n = true) :
    n.data.isEmpty = false := by
  have p1 := (Bool.and_eq_true _ _).mp hn
  have p2 := (Bool.and_eq_true _ _).mp p1.1
  have p3 := (Bool.and_eq_true _ _).mp p2.1
  simpa using p3.1

/-- C7 (confirmed): storing a file with the expose flag and then reading it
back through the public serving route yields exactly the uploaded bytes;
the write overwrites any previous file at that path. -/
theorem store_then_read_roundtrip (fs : FS) (base f n : String) (b : Bytes)
    (hf : grammarOk f = true) (hn : fnameOk n = true) :
    servePublicFile (storeFile fs base f n b true).1 f n = .ok b := by
  have hv := validatePath_some_ok hf hn
  have hne := grammar_nonempty hf
  have hnne := fnameOk_nonempty hn
  simp [storeFile, servePublicFile, hne, hnne, hv, writeFileAt, alGet_alSet_self]

theorem store_then_read_roundtrip_witness :
    servePublicFile (storeFile ⟨[], []⟩ "B" "docs" "a.txt" [104, 105] true).1
      "docs" "a.txt" = .ok [104, 105] :=
  store_then_read_roundtrip ⟨[], []⟩ "B" "docs" "a.txt" [104, 105]
    (by decide) (by decide)

/-- C10 (confirmed): createFolder and storeFile write only into the root
selected by the expose flag and leave the other root unchanged; a folder of
the same name in the opposite root survives, so these operations can
produce dual existence of one logical path in both roots. -/
theorem create_upload_frame (fs : FS) (base f n : String) (b : Bytes)
    (hf : grammarOk f = true) (hn : fnameOk n = true) :
    (storeFile fs base f n b true).1.privRoot = fs.privRoot
    ∧ (storeFile fs base f n b false).1.pubRoot = fs.pubRoot
    ∧ (createFolder fs base f true).1.privRoot = fs.privRoot
    ∧ (createFolder fs base f false).1.pubRoot = fs.pubRoot
    ∧ (folderHas fs.privRoot f = true →
        folderHas (storeFile fs base f n b true).1.pubRoot f = true
          ∧ folderHas (storeFile fs base f n b true).1.privRoot f = true)
    ∧ (folderHas fs.pubRoot f = true →
        folderHas (createFolder fs base f false).1.pubRoot f = true
          ∧ folderHas (createFolder fs base f false).1.privRoot f = true) := by
  have hv := validatePath_some_ok hf hn
  have hvn := validatePath_none_ok hf
  have hne := grammar_nonempty hf
  have hnne := fnameOk_nonempty hn
  refine ⟨?_, ?_, ?_, ?_, ?_, ?_⟩
  · simp [storeFile, hne, hnne, hv]
  · simp [storeFile, hne, hnne, hv]
  · simp [createFolder, hne, hvn]
  · simp [createFolder, hne, hvn]
  · intro hpriv
    constructor
    · simp [storeFile, hne, hnne, hv, writeFileAt_has]
    · simpa [storeFile, hne, hnne, hv] using hpriv
  · intro hpub
    constructor
    · simpa [createFolder, hne, hvn] using hpub
    · simp [createFolder, hne, hvn, ensureDirAt_has]

theorem create_upload_frame_witness :
    let fs0 : FS := ⟨[("docs", [])], [("docs", [])]⟩
    (storeFile fs0 "B" "docs" "a.txt" [1] true).1.privRoot = fs0.privRoot
    ∧ (storeFile fs0 "B" "docs" "a.txt" [1] false).1.pubRoot = fs0.pubRoot
    ∧ (createFolder fs0 "B" "docs" true).1.privRoot = fs0.privRoot
    ∧ (createFolder fs0 "B" "docs" false).1.pubRoot = fs0.pubRoot
    ∧ (folderHas fs0.privRoot "docs" = true →
        folderHas (storeFile fs0 "B" "docs" "a.txt" [1] true).1.pubRoot "docs" = true
          ∧ folderHas (storeFile fs0 "B" "docs" "a.txt" [1] true).1.privRoot "docs" = true)
    ∧ (folderHas fs0.pubRoot "docs" = true →
        folderHas (createFolder fs0 "B" "docs" false).1.pubRoot "docs" = true
          ∧ folderHas (createFolder fs0 "B" "docs" false).1.privRoot "docs" = true) :=
  create_upload_frame ⟨[("docs", [])], [("docs", [])]⟩ "B" "docs" "a.txt" [1]
    (by decide) (by decide)

/-- C5 (confirmed): expose succeeds twice in a row with visibility exposed
both times, unexpose succeeds twice in a row with visibility hidden both
times, and each returns NotFound exactly when the folder is absent from
both roots. -/
theorem expose_unexpose_idempotent (fs : FS) (base f : String)
    (hf : grammarOk f = true) :
    ((folderHas fs.pubRoot f || folderHas fs.privRoot f) = false →
       (exposeFolder fs base f).2 = .error (.notFound "Folder not found")
       ∧ (unexposeFolder fs base f).2 = .error (.notFound "Folder not found"))
    ∧ ((folderHas fs.pubRoot f || folderHas fs.privRoot f) = true →
       respVis (exposeFolder fs base f).2 = some (some Vis.exposed)
       ∧ respVis (exposeFolder (exposeFolder fs base f).1 base f).2
           = some (some Vis.exposed)
       ∧ respVis (unexposeFolder fs base f).2 = some (some Vis.hidden)
       ∧ respVis (unexposeFolder (unexposeFolder fs base f).1 base f).2
           = some (some Vis.hidden)) := by
  have hvn := validatePath_none_ok hf
  constructor
  · intro habs
    cases hpriv : alGet fs.privRoot f with
    | some d => exfalso; simp [folderHas, hpriv] at habs
    | none =>
      cases hpub : alGet fs.pubRoot f with
      | some d => exfalso; simp [folderHas, hpub] at habs
      | none =>
        constructor
        · simp [exposeFolder, hvn, hpriv, folderHas, hpub]
        · simp [unexposeFolder, hvn, hpub, folderHas, hpriv]
  · intro hex
    cases hpriv : alGet fs.privRoot f with
    | some d =>
      cases hpub : alGet fs.pubRoot f with
      | some e =>
        refine ⟨?_, ?_, ?_, ?_⟩
        · simp [exposeFolder, hvn, hpriv, respVis]
        · simp [exposeFolder, hvn, hpriv, alGet_alDel_self, folderHas,
            alGet_alSet_self, respVis]
        · simp [unexposeFolder, hvn, hpub, respVis]
        · simp [unexposeFolder, hvn, hpub, alGet_alDel_self, folderHas,
            alGet_alSet_self, respVis]
      | none =>
        refine ⟨?_, ?_, ?_, ?_⟩
        · simp [exposeFolder, hvn, hpriv, respVis]
        · simp [exposeFolder, hvn, hpriv, alGet_alDel_self, folderHas,
            alGet_alSet_self, respVis]
        · simp [unexposeFolder, hvn, hpub, folderHas, hpriv, respVis]
        · simp [unexposeFolder, hvn, hpub, folderHas, hpriv, respVis]
    | none =>
      cases hpub : alGet fs.pubRoot f with
      | some e =>
        refine ⟨?_, ?_, ?_, ?_⟩
        · simp [exposeFolder, hvn, hpriv, folderHas, hpub, respVis]
        · simp [exposeFolder, hvn, hpriv, folderHas, hpub, respVis]
        · simp [unexposeFolder, hvn, hpub, respVis]
        · simp [unexposeFolder, hvn, hpub, alGet_alDel_self, folderHas,
            alGet_alSet_self, respVis]
      | none =>
        exfalso
        simp [folderHas, hpub, hpriv] at hex

theorem expose_unexpose_idempotent_witness :
    let fs0 : FS := ⟨[], [("docs", [("a.txt", [1])])]⟩
    ((folderHas fs0.pubRoot "docs" || folderHas fs0.privRoot "docs") = false →
       (exposeFolder fs0 "B" "docs").2 = .error (.notFound "Folder not found")
       ∧ (unexposeFolder fs0 "B" "docs").2 = .error (.notFound "Folder not found"))
    ∧ ((folderHas fs0.pubRoot "docs" || folderHas fs0.privRoot "docs") = true →
       respVis (exposeFolder fs0 "B" "docs").2 = some (some Vis.exposed)
       ∧ respVis (exposeFolder (exposeFolder fs0 "B" "docs").1 "B" "docs").2
           = some (some Vis.exposed)
       ∧ respVis (unexposeFolder fs0 "B" "docs").2 = some (some Vis.hidden)
       ∧ respVis (unexposeFolder (unexposeFolder fs0 "B" "docs").1 "B" "docs").2
           = some (some Vis.hidden)) :=
  expose_unexpose_idempotent ⟨[], [("docs", [("a.txt", [1])])]⟩ "B" "docs" (by decide)

theorem validate_identity_on_accept_witness :
    (SafeName.mk "docs" (some "a.txt")).folder = "docs"
      ∧ ∀ s, (some "a.txt" : Option String) = some s → s.data.isEmpty = false →
          (SafeName.mk "docs" (some "a.txt")).filename = some s :=
  validate_identity_on_accept "docs" (some "a.txt") ⟨"docs", some "a.txt"⟩ (by decide)

/-- C1 (counterexample): with docs/a.txt present in both roots, delete
reports success yet removes only the public copy; the private copy
survives, so deletion does not cover both roots for files. -/
theorem delete_file_dual_counterexample :
    (deleteItem ⟨[("docs", [("a.txt", [1])])], [("docs", [("a.txt", [2])])]⟩
        "docs" (some "a.txt")).1
      = ⟨[("docs", [])], [("docs", [("a.txt", [2])])]⟩
    ∧ respVis (deleteItem ⟨[("docs", [("a.txt", [1])])], [("docs", [("a.txt", [2])])]⟩
        "docs" (some "a.txt")).2 = some (some Vis.hidden)
    ∧ fileHas (deleteItem ⟨[("docs", [("a.txt", [1])])], [("docs", [("a.txt", [2])])]⟩
        "docs" (some "a.txt")).1.privRoot "docs" "a.txt" = true := by
  decide

/-- C1 (amended): folder deletion removes the folder from the exposed root
if present and from the hidden root if present, with 404 exactly when
absent from both; file deletion removes only the first copy found, probing
the exposed root first and leaving a duplicate in the hidden root
untouched, with 404 exactly when absent from both. -/
theorem delete_amended (fs : FS) (f n : String)
    (hf : grammarOk f = true) (hn : fnameOk n = true) :
    (((folderHas fs.pubRoot f || folderHas fs.privRoot f) = false →
        (deleteItem fs f none).2 = .error (.notFound "Folder not found"))
      ∧ ((folderHas fs.pubRoot f || folderHas fs.privRoot f) = true →
        respVis (deleteItem fs f none).2 = some (some Vis.hidden)
        ∧ folderHas (deleteItem fs f none).1.pubRoot f = false
        ∧ folderHas (deleteItem fs f none).1.privRoot f = false))
    ∧ (((fileHas fs.pubRoot f n || fileHas fs.privRoot f n) = false →
        (deleteItem fs f (some n)).2 = .error (.notFound "File not found"))
      ∧ (fileHas fs.pubRoot f n = true →
        (deleteItem fs f (some n)).1.privRoot = fs.privRoot
        ∧ fileHas (deleteItem fs f (some n)).1.pubRoot f n = false
        ∧ respVis (deleteItem fs f (some n)).2 = some (some Vis.hidden))
      ∧ (fileHas fs.pubRoot f n = false → fileHas fs.privRoot f n = true →
        (deleteItem fs f (some n)).1.pubRoot = fs.pubRoot
        ∧ fileHas (deleteItem fs f (some n)).1.privRoot f n = false
        ∧ respVis (deleteItem fs f (some n)).2 = some (some Vis.hidden))) := by
  have hvn := validatePath_none_ok hf
  have hv := validatePath_some_ok hf hn
  have hnne := fnameOk_nonempty hn
  constructor
  · constructor
    · intro habs
      cases hgp : alGet fs.pubRoot f with
      | some d => exfalso; simp [folderHas, hgp] at habs
      | none =>
        cases hgq : alGet fs.privRoot f with
        | some d => exfalso; simp [folderHas, hgq] at habs
        | none => simp [deleteItem, truthy, hvn, folderHas, hgp, hgq]
    · intro hex
      cases hgp : alGet fs.pubRoot f with
      | some d =>
        have h1 : folderHas fs.pubRoot f = true := by simp [folderHas, hgp]
        cases hgq : alGet fs.privRoot f with
        | some e =>
          have h2 : folderHas fs.privRoot f = true := by simp [folderHas, hgq]
          have hout : deleteItem fs f none
              = (⟨alDel fs.pubRoot f, alDel fs.privRoot f⟩,
                 .ok ⟨some .hidden, none, some f, none, [], []⟩) := by
            simp [deleteItem, truthy, hvn, h1, h2]
          rw [hout]
          refine ⟨rfl, ?_, ?_⟩ <;> simp [folderHas, alGet_alDel_self]
        | none =>
          have h2 : folderHas fs.privRoot f = false := by simp [folderHas, hgq]
          have hout : deleteItem fs f none
              = (⟨alDel fs.pubRoot f, fs.privRoot⟩,
                 .ok ⟨some .hidden, none, some f, none, [], []⟩) := by
            simp [deleteItem, truthy, hvn, h1, h2]
          rw [hout]
          refine ⟨rfl, ?_, ?_⟩ <;> simp [folderHas, alGet_alDel_self, hgq]
      | none =>
        have h1 : folderHas fs.pubRoot f = false := by simp [folderHas, hgp]
        cases hgq : alGet fs.privRoot f with
        | some e =>
          have h2 : folderHas fs.privRoot f = true := by simp [folderHas, hgq]
          have hout : deleteItem fs f none
              = (⟨fs.pubRoot, alDel fs.privRoot f⟩,
                 .ok ⟨some .hidden, none, some f, none, [], []⟩) := by
            simp [deleteItem, truthy, hvn, h1, h2]
          rw [hout]
          refine ⟨rfl, ?_, ?_⟩ <;> simp [folderHas, alGet_alDel_self, hgp]
        | none =>
          exfalso; simp [folderHas, hgp, hgq] at hex
  · refine ⟨?_, ?_, ?_⟩
    · intro habs
      have h1 : fileHas fs.pubRoot f n = false := by
        cases hb : fileHas fs.pubRoot f n <;> simp_all
      have h2 : fileHas fs.privRoot f n = false := by
        cases hb : fileHas fs.privRoot f n <;> simp_all
      simp [deleteItem, truthy, hnne, hv, h1, h2]
    · intro hp
      cases hgp : alGet fs.pubRoot f with
      | none => exfalso; simp [fileHas, hgp] at hp
      | some d =>
        have hout : deleteItem fs f (some n)
            = ({ fs with pubRoot := removeFileAt fs.pubRoot f n },
               .ok ⟨some .hidden, none, some f, some n, [], []⟩) := by
          simp [deleteItem, truthy, hnne, hv, hp]
        have hrm : removeFileAt fs.pubRoot f n = alSet fs.pubRoot f (alDel d n) := by
          simp [removeFileAt, hgp]
        rw [hout]
        refine ⟨rfl, ?_, by simp [respVis]⟩
        simp [hrm, fileHas, alGet_alSet_self, alGet_alDel_self]
    · intro hp hq
      cases hgq : alGet fs.privRoot f with
      | none => exfalso; simp [fileHas, hgq] at hq
      | some d =>
        have hout : deleteItem fs f (some n)
            = ({ fs with privRoot := removeFileAt fs.privRoot f n },
               .ok ⟨some .hidden, none, some f, some n, [], []⟩) := by
          simp [deleteItem, truthy, hnne, hv, hp, hq]
        have hrm : removeFileAt fs.privRoot f n = alSet fs.privRoot f (alDel d n) := by
          simp [removeFileAt, hgq]
        rw [hout]
        refine ⟨rfl, ?_, by simp [respVis]⟩
        simp [hrm, fileHas, alGet_alSet_self, alGet_alDel_self]

theorem delete_amended_witness :
    let fs0 : FS := ⟨[("docs", [("a.txt", [1])])], [("docs", [("a.txt", [2])])]⟩
    (((folderHas fs0.pubRoot "docs" || folderHas fs0.privRoot "docs") = false →
        (deleteItem fs0 "docs" none).2 = .error (.notFound "Folder not found"))
      ∧ ((folderHas fs0.pubRoot "docs" || folderHas fs0.privRoot "docs") = true →
        respVis (deleteItem fs0 "docs" none).2 = some (some Vis.hidden)
        ∧ folderHas (deleteItem fs0 "docs" none).1.pubRoot "docs" = false
        ∧ folderHas (deleteItem fs0 "docs" none).1.privRoot "docs" = false))
    ∧ (((fileHas fs0.pubRoot "docs" "a.txt" || fileHas fs0.privRoot "docs" "a.txt") = false →
        (deleteItem fs0 "docs" (some "a.txt")).2 = .error (.notFound "File not found"))
      ∧ (fileHas fs0.pubRoot "docs" "a.txt" = true →
        (deleteItem fs0 "docs" (some "a.txt")).1.privRoot = fs0.privRoot
        ∧ fileHas (deleteItem fs0 "docs" (some "a.txt")).1.pubRoot "docs" "a.txt" = false
        ∧ respVis (deleteItem fs0 "docs" (some "a.txt")).2 = some (some Vis.hidden))
      ∧ (fileHas fs0.pubRoot "docs" "a.txt" = false →
          fileHas fs0.privRoot "docs" "a.txt" = true →
        (deleteItem fs0 "docs" (some "a.txt")).1.pubRoot = fs0.pubRoot
        ∧ fileHas (deleteItem fs0 "docs" (some "a.txt")).1.privRoot "docs" "a.txt" = false
        ∧ respVis (deleteItem fs0 "docs" (some "a.txt")).2 = some (some Vis.hidden))) :=
  delete_amended ⟨[("docs", [("a.txt", [1])])], [("docs", [("a.txt", [2])])]⟩
    "docs" "a.txt" (by decide) (by decide)

/-- C4 (counterexample): with docs/a.txt present in both roots, renaming
the file to b.txt succeeds with visibility exposed but moves only the
public copy; the old name still resolves (to the stale hidden copy) instead
of NotFound. -/
theorem rename_stale_counterexample :
    respVis (renameItem ⟨[("docs", [("a.txt", [1])])], [("docs", [("a.txt", [2])])]⟩
        "B" RKind.file "docs" (some "a.txt") "b.txt").2 = some (some Vis.exposed)
    ∧ resolveFile (renameItem ⟨[("docs", [("a.txt", [1])])], [("docs", [("a.txt", [2])])]⟩
        "B" RKind.file "docs" (some "a.txt") "b.txt").1 "docs" "a.txt"
      = some Vis.hidden := by
  decide

/-- C4 (amended): rename moves the item within the root selected by
probing the exposed root first, the reported visibility equals the resolver
visibility before the rename, the other root is left unchanged, and —
provided the old logical path did not also exist in the unselected root —
a subsequent resolution of the old name yields NotFound; a stale duplicate
in the other root still resolves.  The new name must differ from the old
one (fs-extra rejects a same-path move). -/
theorem rename_amended (fs : FS) (base f n nn ng : String)
    (hf : grammarOk f = true) (hn : fnameOk n = true) (hnn : fnameOk nn = true)
    (hne : n ≠ nn) (hg : grammarOk ng = true) (hfg : f ≠ ng) :
    (fileHas fs.pubRoot f n = true →
      respVis (renameItem fs base .file f (some n) nn).2 = some (some Vis.exposed)
      ∧ (renameItem fs base .file f (some n) nn).1.privRoot = fs.privRoot
      ∧ fileHas (renameItem fs base .file f (some n) nn).1.pubRoot f nn = true
      ∧ fileHas (renameItem fs base .file f (some n) nn).1.pubRoot f n = false
      ∧ (fileHas fs.privRoot f n = false →
          resolveFile (renameItem fs base .file f (some n) nn).1 f n = none))
    ∧ (fileHas fs.pubRoot f n = false → fileHas fs.privRoot f n = true →
      respVis (renameItem fs base .file f (some n) nn).2 = some (some Vis.hidden)
      ∧ (renameItem fs base .file f (some n) nn).1.pubRoot = fs.pubRoot
      ∧ fileHas (renameItem fs base .file f (some n) nn).1.privRoot f nn = true
      ∧ fileHas (renameItem fs base .file f (some n) nn).1.privRoot f n = false
      ∧ resolveFile (renameItem fs base .file f (some n) nn).1 f n = none)
    ∧ (folderHas fs.pubRoot f = true →
      respVis (renameItem fs base .folder f none ng).2 = some (some Vis.exposed)
      ∧ (renameItem fs base .folder f none ng).1.privRoot = fs.privRoot
      ∧ folderHas (renameItem fs base .folder f none ng).1.pubRoot ng = true
      ∧ folderHas (renameItem fs base .folder f none ng).1.pubRoot f = false
      ∧ (folderHas fs.privRoot f = false →
          resolveFolder (renameItem fs base .folder f none ng).1 f = none))
    ∧ (folderHas fs.pubRoot f = false → folderHas fs.privRoot f = true →
      respVis (renameItem fs base .folder f none ng).2 = some (some Vis.hidden)
      ∧ (renameItem fs base .folder f none ng).1.pubRoot = fs.pubRoot
      ∧ folderHas (renameItem fs base .folder f none ng).1.privRoot ng = true
      ∧ folderHas (renameItem fs base .folder f none ng).1.privRoot f = false
      ∧ resolveFolder (renameItem fs base .folder f none ng).1 f = none) := by
  have hvf := validatePath_some_ok hf hn
  have hvnn := validatePath_some_ok hf hnn
  have hvfn := validatePath_none_ok hf
  have hvgn := validatePath_none_ok hg
  have hfne := grammar_nonempty hf
  have hnne := fnameOk_nonempty hn
  have hnnne := fnameOk_nonempty hnn
  have hgne := grammar_nonempty hg
  refine ⟨?_, ?_, ?_, ?_⟩
  · intro hp
    cases hgp : alGet fs.pubRoot f with
    | none => exfalso; simp [fileHas, hgp] at hp
    | some d =>
      cases hgd : alGet d n with
      | none => exfalso; simp [fileHas, hgp, hgd] at hp
      | some c =>
        have hout : renameItem fs base .file f (some n) nn
            = ({ fs with pubRoot := moveFileAt fs.pubRoot f n nn },
               .ok ⟨some .exposed, some (buildPublicUrl base f (some nn)),
                    some f, some nn, [], []⟩) := by
          simp [renameItem, hfne, hnnne, truthy, hnne, hvf, hvnn, hp, hne]
        have hmove : moveFileAt fs.pubRoot f n nn
            = alSet fs.pubRoot f (alSet (alDel d n) nn c) := by
          simp [moveFileAt, hgp, hgd]
        have hold : fileHas (moveFileAt fs.pubRoot f n nn) f n = false := by
          simp [hmove, fileHas, alGet_alSet_self, alGet_alSet_ne _ _ _ _ hne,
            alGet_alDel_self]
        refine ⟨?_, ?_, ?_, ?_, ?_⟩
        · rw [hout]; rfl
        · rw [hout]
        · rw [hout]; simp [hmove, fileHas, alGet_alSet_self]
        · rw [hout]; exact hold
        · intro hq
          rw [hout]
          simp [resolveFile, hold, hq]
  · intro hp hq
    cases hgp : alGet fs.privRoot f with
    | none => exfalso; simp [fileHas, hgp] at hq
    | some d =>
      cases hgd : alGet d n with
      | none => exfalso; simp [fileHas, hgp, hgd] at hq
      | some c =>
        have hout : renameItem fs base .file f (some n) nn
            = ({ fs with privRoot := moveFileAt fs.privRoot f n nn },
               .ok ⟨some .hidden, none, some f, some nn, [], []⟩) := by
          simp [renameItem, hfne, hnnne, truthy, hnne, hvf, hvnn, hp, hq, hne]
        have hmove : moveFileAt fs.privRoot f n nn
            = alSet fs.privRoot f (alSet (alDel d n) nn c) := by
          simp [moveFileAt, hgp, hgd]
        have hold : fileHas (moveFileAt fs.privRoot f n nn) f n = false := by
          simp [hmove, fileHas, alGet_alSet_self, alGet_alSet_ne _ _ _ _ hne,
            alGet_alDel_self]
        refine ⟨?_, ?_, ?_, ?_, ?_⟩
        · rw [hout]; rfl
        · rw [hout]
        · rw [hout]; simp [hmove, fileHas, alGet_alSet_self]
        · rw [hout]; exact hold
        · rw [hout]
          simp [resolveFile, hold, hp]
  · intro hp
    cases hgp : alGet fs.pubRoot f with
    | none => exfalso; simp [folderHas, hgp] at hp
    | some d =>
      have hout : renameItem fs base .folder f none ng
          = ({ fs with pubRoot := alSet (alDel fs.pubRoot f) ng d },
             .ok ⟨some .exposed, some (buildPublicUrl base ng none),
                  some ng, none, [], []⟩) := by
        simp [renameItem, hfne, hgne, hvfn, hvgn, hgp, hfg]
      have hold : folderHas (alSet (alDel fs.pubRoot f) ng d) f = false := by
        simp [folderHas, alGet_alSet_ne _ _ _ _ hfg, alGet_alDel_self]
      refine ⟨?_, ?_, ?_, ?_, ?_⟩
      · rw [hout]; rfl
      · rw [hout]
      · rw [hout]; simp [folderHas, alGet_alSet_self]
      · rw [hout]; exact hold
      · intro hq
        rw [hout]
        simp [resolveFolder, hold, hq]
  · intro hp hq
    cases hgp : alGet fs.privRoot f with
    | none => exfalso; simp [folderHas, hgp] at hq
    | some d =>
      have hpn : alGet fs.pubRoot f = none := by
        cases hb : alGet fs.pubRoot f with
        | none => rfl
        | some e => exfalso; simp [folderHas, hb] at hp
      have hout : renameItem fs base .folder f none ng
          = ({ fs with privRoot := alSet (alDel fs.privRoot f) ng d },
             .ok ⟨some .hidden, none, some ng, none, [], []⟩) := by
        simp [renameItem, hfne, hgne, hvfn, hvgn, hgp, hpn, hfg]
      have hold : folderHas (alSet (alDel fs.privRoot f) ng d) f = false := by
        simp [folderHas, alGet_alSet_ne _ _ _ _ hfg, alGet_alDel_self]
      refine ⟨?_, ?_, ?_, ?_, ?_⟩
      · rw [hout]; rfl
      · rw [hout]
      · rw [hout]; simp [folderHas, alGet_alSet_self]
      · rw [hout]; exact hold
      · rw [hout]
        simp [resolveFolder, hold, hp]

theorem rename_amended_witness :
    let fs0 : FS := ⟨[("docs", [("a.txt", [1])])], [("docs", [("a.txt", [2])])]⟩
    (fileHas fs0.pubRoot "docs" "a.txt" = true →
      respVis (renameItem fs0 "B" .file "docs" (some "a.txt") "b.txt").2
          = some (some Vis.exposed)
      ∧ (renameItem fs0 "B" .file "docs" (some "a.txt") "b.txt").1.privRoot
          = fs0.privRoot
      ∧ fileHas (renameItem fs0 "B" .file "docs" (some "a.txt") "b.txt").1.pubRoot
          "docs" "b.txt" = true
      ∧ fileHas (renameItem fs0 "B" .file "docs" (some "a.txt") "b.txt").1.pubRoot
          "docs" "a.txt" = false
      ∧ (fileHas fs0.privRoot "docs" "a.txt" = false →
          resolveFile (renameItem fs0 "B" .file "docs" (some "a.txt") "b.txt").1
            "docs" "a.txt" = none))
    ∧ (fileHas fs0.pubRoot "docs" "a.txt" = false →
        fileHas fs0.privRoot "docs" "a.txt" = true →
      respVis (renameItem fs0 "B" .file "docs" (some "a.txt") "b.txt").2
          = some (some Vis.hidden)
      ∧ (renameItem fs0 "B" .file "docs" (some "a.txt") "b.txt").1.pubRoot
          = fs0.pubRoot
      ∧ fileHas (renameItem fs0 "B" .file "docs" (some "a.txt") "b.txt").1.privRoot
          "docs" "b.txt" = true
      ∧ fileHas (renameItem fs0 "B" .file "docs" (some "a.txt") "b.txt").1.privRoot
          "docs" "a.txt" = false
      ∧ resolveFile (renameItem fs0 "B" .file "docs" (some "a.txt") "b.txt").1
          "docs" "a.txt" = none)
    ∧ (folderHas fs0.pubRoot "docs" = true →
      respVis (renameItem fs0 "B" .folder "docs" none "docs2").2
          = some (some Vis.exposed)
      ∧ (renameItem fs0 "B" .folder "docs" none "docs2").1.privRoot = fs0.privRoot
      ∧ folderHas (renameItem fs0 "B" .folder "docs" none "docs2").1.pubRoot
          "docs2" = true
      ∧ folderHas (renameItem fs0 "B" .folder "docs" none "docs2").1.pubRoot
          "docs" = false
      ∧ (folderHas fs0.privRoot "docs" = false →
          resolveFolder (renameItem fs0 "B" .folder "docs" none "docs2").1
            "docs" = none))
    ∧ (folderHas fs0.pubRoot "docs" = false → folderHas fs0.privRoot "docs" = true →
      respVis (renameItem fs0 "B" .folder "docs" none "docs2").2
          = some (some Vis.hidden)
      ∧ (renameItem fs0 "B" .folder "docs" none "docs2").1.pubRoot = fs0.pubRoot
      ∧ folderHas (renameItem fs0 "B" .folder "docs" none "docs2").1.privRoot
          "docs2" = true
      ∧ folderHas (renameItem fs0 "B" .folder "docs" none "docs2").1.privRoot
          "docs" = false
      ∧ resolveFolder (renameItem fs0 "B" .folder "docs" none "docs2").1
          "docs" = none) :=
  rename_amended ⟨[("docs", [("a.txt", [1])])], [("docs", [("a.txt", [2])])]⟩
    "B" "docs" "a.txt" "b.txt" "docs2"
    (by decide) (by decide) (by decide) (by decide) (by decide) (by decide)

/-- C3 (counterexample): with the folder docs present in both roots with
different contents, expose probes the hidden root first and moves the
hidden copy over the exposed one, so the hidden-root copy is chosen while
an exposed-root copy exists, against the uniform exposed-first precedence
the claim states for expose/unexpose. -/
theorem expose_precedence_counterexample :
    alGet (exposeFolder ⟨[("docs", [("pub.txt", [1])])],
        [("docs", [("priv.txt", [2])])]⟩ "B" "docs").1.pubRoot "docs"
      = some [("priv.txt", [2])]
    ∧ alGet (FS.mk [("docs", [("pub.txt", [1])])]
        [("docs", [("priv.txt", [2])])]).pubRoot "docs"
      = some [("pub.txt", [1])]
    ∧ respVis (exposeFolder ⟨[("docs", [("pub.txt", [1])])],
        [("docs", [("priv.txt", [2])])]⟩ "B" "docs").2
      = some (some Vis.exposed) := by
  decide

/-- C3 (amended): with a logical path present in both roots, delete,
rename and list-folder probe the exposed root first and select it, and
unexpose selects the exposed copy (it is the one moved into the hidden
root); expose however probes the hidden root first, so the hidden copy is
selected and overwrites the exposed one. -/
theorem precedence_amended (fs : FS) (base f n nn : String)
    (hf : grammarOk f = true) (hn : fnameOk n = true) (hnn : fnameOk nn = true)
    (hne : n ≠ nn)
    (hfp : fileHas fs.pubRoot f n = true) (hfq : fileHas fs.privRoot f n = true)
    (hdp : folderHas fs.pubRoot f = true) (hdq : folderHas fs.privRoot f = true) :
    (∃ d, alGet fs.pubRoot f = some d ∧
        listFolder fs base f =
          .ok ⟨some Vis.exposed, some (buildPublicUrl base f none), some f, none,
               d.map (fun p => FileInfo.mk p.1 p.2.length), []⟩)
    ∧ respVis (renameItem fs base .file f (some n) nn).2 = some (some Vis.exposed)
    ∧ (renameItem fs base .file f (some n) nn).1.privRoot = fs.privRoot
    ∧ (deleteItem fs f (some n)).1.privRoot = fs.privRoot
    ∧ fileHas (deleteItem fs f (some n)).1.pubRoot f n = false
    ∧ alGet (unexposeFolder fs base f).1.privRoot f = alGet fs.pubRoot f
    ∧ alGet (unexposeFolder fs base f).1.pubRoot f = none
    ∧ alGet (exposeFolder fs base f).1.pubRoot f = alGet fs.privRoot f
    ∧ alGet (exposeFolder fs base f).1.privRoot f = none := by
  have hvf := validatePath_some_ok hf hn
  have hvnn := validatePath_some_ok hf hnn
  have hvn := validatePath_none_ok hf
  have hfne := grammar_nonempty hf
  have hnne := fnameOk_nonempty hn
  have hnnne := fnameOk_nonempty hnn
  cases hgp : alGet fs.pubRoot f with
  | none => exfalso; simp [folderHas, hgp] at hdp
  | some dp =>
    cases hgq : alGet fs.privRoot f with
    | none => exfalso; simp [folderHas, hgq] at hdq
    | some dq =>
      have houtR : renameItem fs base .file f (some n) nn
          = ({ fs with pubRoot := moveFileAt fs.pubRoot f n nn },
             .ok ⟨some .exposed, some (buildPublicUrl base f (some nn)),
                  some f, some nn, [], []⟩) := by
        simp [renameItem, hfne, hnnne, truthy, hnne, hvf, hvnn, hfp, hne]
      have houtD : deleteItem fs f (some n)
          = ({ fs with pubRoot := removeFileAt fs.pubRoot f n },
             .ok ⟨some .hidden, none, some f, some n, [], []⟩) := by
        simp [deleteItem, truthy, hnne, hvf, hfp]
      refine ⟨⟨dp, rfl, ?_⟩, ?_, ?_, ?_, ?_, ?_, ?_, ?_, ?_⟩
      · simp [listFolder, hvn, hgp]
      · rw [houtR]; rfl
      · rw [houtR]
      · rw [houtD]
      · rw [houtD]
        simp [removeFileAt, hgp, fileHas, alGet_alSet_self, alGet_alDel_self]
      · simp [unexposeFolder, hvn, hgp, alGet_alSet_self]
      · simp [unexposeFolder, hvn, hgp, alGet_alDel_self]
      · simp [exposeFolder, hvn, hgq, alGet_alSet_self]
      · simp [exposeFolder, hvn, hgq, alGet_alDel_self]

theorem precedence_amended_witness :
    let fs0 : FS := ⟨[("docs", [("a.txt", [1])])], [("docs", [("a.txt", [2])])]⟩
    (∃ d, alGet fs0.pubRoot "docs" = some d ∧
        listFolder fs0 "B" "docs" =
          .ok ⟨some Vis.exposed, some (buildPublicUrl "B" "docs" none), some "docs",
               none, d.map (fun p => FileInfo.mk p.1 p.2.length), []⟩)
    ∧ respVis (renameItem fs0 "B" .file "docs" (some "a.txt") "b.txt").2
        = some (some Vis.exposed)
    ∧ (renameItem fs0 "B" .file "docs" (some "a.txt") "b.txt").1.privRoot
        = fs0.privRoot
    ∧ (deleteItem fs0 "docs" (some "a.txt")).1.privRoot = fs0.privRoot
    ∧ fileHas (deleteItem fs0 "docs" (some "a.txt")).1.pubRoot "docs" "a.txt" = false
    ∧ alGet (unexposeFolder fs0 "B" "docs").1.privRoot "docs"
        = alGet fs0.pubRoot "docs"
    ∧ alGet (unexposeFolder fs0 "B" "docs").1.pubRoot "docs" = none
    ∧ alGet (exposeFolder fs0 "B" "docs").1.pubRoot "docs"
        = alGet fs0.privRoot "docs"
    ∧ alGet (exposeFolder fs0 "B" "docs").1.privRoot "docs" = none :=
  precedence_amended ⟨[("docs", [("a.txt", [1])])], [("docs", [("a.txt", [2])])]⟩
    "B" "docs" "a.txt" "b.txt"
    (by decide) (by decide) (by decide) (by decide)
    (by decide) (by decide) (by decide) (by decide)

theorem hasName_append (m1 m2 : List FolderInfo) (x : String) :
    hasName (m1 ++ m2) x = (hasName m1 x || hasName m2 x) := by
  simp [hasName]

theorem hasName_iff {l : List FolderInfo} {x : String} :
    hasName l x = true ↔ ∃ g ∈ l, g.name = x := by
  simp [hasName, List.any_eq_true, beq_iff_eq]

theorem mapSet_append (m : List FolderInfo) (g : FolderInfo)
    (h : hasName m g.name = false) : mapSet m g = m ++ [g] := by
  induction m with
  | nil => rfl
  | cons a t ih =>
    rw [hasName, List.any_cons] at h
    rcases Bool.or_eq_false_iff.mp h with ⟨h1, h2⟩
    have hne : ¬ a.name = g.name := by simpa using h1
    simp [mapSet, hne, ih h2]

theorem foldl_mapStep_fresh (l : List FolderInfo) :
    ∀ m, (l.map FolderInfo.name).Nodup →
      (∀ g ∈ l, hasName m g.name = false) →
      List.foldl mapStep m l = m ++ l := by
  induction l with
  | nil => intro m _ _; simp
  | cons g t ih =>
    intro m hnd hfresh
    have hg : hasName m g.name = false := hfresh g (List.mem_cons_self _ _)
    have hstep : mapStep m g = m ++ [g] := by
      simp [mapStep, hg, mapSet_append m g hg]
    rw [List.map_cons, List.nodup_cons] at hnd
    have hfresh2 : ∀ g2 ∈ t, hasName (m ++ [g]) g2.name = false := by
      intro g2 hg2
      rw [hasName_append]
      have e1 : hasName m g2.name = false := hfresh g2 (List.mem_cons_of_mem _ hg2)
      have hne : ¬ g.name = g2.name := fun he =>
        hnd.1 (he ▸ List.mem_map_of_mem FolderInfo.name hg2)
      have e2 : hasName [g] g2.name = false := by simp [hasName, hne]
      rw [e1, e2]
      rfl
    rw [List.foldl_cons, hstep, ih (m ++ [g]) hnd.2 hfresh2]
    simp

theorem foldl_mapStep_hidden (l : List FolderInfo) :
    ∀ m, (l.map FolderInfo.name).Nodup →
      (∀ g ∈ l, g.visibility = Vis.hidden) →
      List.foldl mapStep m l = m ++ l.filter (fun g => !hasName m g.name) := by
  induction l with
  | nil => intro m _ _; simp
  | cons g t ih =>
    intro m hnd hhid
    rw [List.map_cons, List.nodup_cons] at hnd
    have hhid2 : ∀ g2 ∈ t, g2.visibility = Vis.hidden := fun g2 h =>
      hhid g2 (List.mem_cons_of_mem _ h)
    cases hg : hasName m g.name with
    | true =>
      have hstep : mapStep m g = m := by
        simp [mapStep, hg, hhid g (List.mem_cons_self _ _)]
      rw [List.foldl_cons, hstep, ih m hnd.2 hhid2]
      simp [List.filter_cons, hg]
    | false =>
      have hstep : mapStep m g = m ++ [g] := by
        simp [mapStep, hg, mapSet_append m g hg]
      rw [List.foldl_cons, hstep, ih (m ++ [g]) hnd.2 hhid2]
      have hfeq : t.filter (fun g2 => !hasName (m ++ [g]) g2.name)
          = t.filter (fun g2 => !hasName m g2.name) := by
        apply List.filter_congr
        intro g2 hg2
        have hne : ¬ g.name = g2.name := fun he =>
          hnd.1 (he ▸ List.mem_map_of_mem FolderInfo.name hg2)
        simp [hasName, hne]
      rw [hfeq]
      simp [List.filter_cons, hg]

theorem alGet_mem {α : Type} {l : List (String × α)} {k : String} {v : α}
    (h : alGet l k = some v) : (k, v) ∈ l := by
  induction l with
  | nil => cases h
  | cons p rest ih =>
    rw [alGet] at h
    by_cases hp : p.1 = k
    · rw [if_pos hp] at h
      injection h with h2
      have hpkv : p = (k, v) := by
        cases p
        simp_all
      rw [← hpkv]
      exact List.mem_cons_self _ _
    · rw [if_neg hp] at h
      exact List.mem_cons_of_mem _ (ih h)

theorem folderHas_of_name_mem {l : RootT} {k : String}
    (h : k ∈ l.map Prod.fst) : folderHas l k = true := by
  induction l with
  | nil => simp at h
  | cons p rest ih =>
    rw [List.map_cons, List.mem_cons] at h
    by_cases hp : p.1 = k
    · simp [folderHas, alGet, hp]
    · rcases h with h | h
      · exact absurd h.symm hp
      · simpa [folderHas, alGet, hp] using ih h

theorem filter_name_length_one {x : String} (l : List FolderInfo)
    (hnd : (l.map FolderInfo.name).Nodup) (hm : ∃ g ∈ l, g.name = x) :
    (l.filter (fun g => g.name == x)).length = 1 := by
  induction l with
  | nil => simp at hm
  | cons a t ih =>
    rw [List.map_cons, List.nodup_cons] at hnd
    by_cases ha : a.name = x
    · have hnone : t.filter (fun g => g.name == x) = [] := by
        rw [List.filter_eq_nil_iff]
        intro g hg
        have : ¬ g.name = x := fun he =>
          hnd.1 (ha ▸ he ▸ List.mem_map_of_mem FolderInfo.name hg)
        simpa using this
      simp [List.filter_cons, ha, hnone]
    · have hm2 : ∃ g ∈ t, g.name = x := by
        rcases hm with ⟨g, hg, hgx⟩
        rcases List.mem_cons.mp hg with rfl | hgt
        · exact absurd hgx ha
        · exact ⟨g, hgt, hgx⟩
      have hpa : (a.name == x) = false := by simpa using ha
      simp only [List.filter_cons, hpa, if_false, Bool.false_eq_true]
      exact ih hnd.2 hm2

theorem listRoot_eq (fs : FS) (base : String)
    (hp : (fs.pubRoot.map Prod.fst).Nodup) (hq : (fs.privRoot.map Prod.fst).Nodup) :
    listRoot fs base =
      .ok ⟨none, none, none, none, [],
        (fs.pubRoot.map (fun p => FolderInfo.mk p.1 Vis.exposed
            (some (buildPublicUrl base p.1 none))))
        ++ (fs.privRoot.map (fun p => FolderInfo.mk p.1 Vis.hidden none)).filter
            (fun g => !hasName (fs.pubRoot.map (fun p => FolderInfo.mk p.1 Vis.exposed
              (some (buildPublicUrl base p.1 none)))) g.name)⟩ := by
  have hpn : ((fs.pubRoot.map (fun p => FolderInfo.mk p.1 Vis.exposed
      (some (buildPublicUrl base p.1 none)))).map FolderInfo.name).Nodup := by
    rw [List.map_map]
    exact hp
  have hqn : ((fs.privRoot.map (fun p => FolderInfo.mk p.1 Vis.hidden none)).map
      FolderInfo.name).Nodup := by
    rw [List.map_map]
    exact hq
  simp only [listRoot, List.foldl_append]
  rw [foldl_mapStep_fresh _ [] hpn (by intro g _; rfl)]
  rw [foldl_mapStep_hidden _ _ hqn ?hid]
  case hid =>
    intro g hg
    rcases List.mem_map.mp hg with ⟨p, _, rfl⟩
    rfl
  simp

theorem folderHas_exists {l : RootT} {k : String} (h : folderHas l k = true) :
    ∃ d, alGet l k = some d := by
  rw [folderHas] at h
  cases hg : alGet l k with
  | some d => exact ⟨d, rfl⟩
  | none => rw [hg] at h; cases h

/-- C6 (confirmed): listRoot enumerates the top-level directories of both
roots, tags each entry with its root's visibility (exposed entries carry
their public URL, hidden entries none), and deduplicates by name: a folder
name present in both roots appears exactly once, tagged exposed with its
public URL.  The hypotheses state that each physical root lists distinct
folder names, which the filesystem guarantees. -/
theorem list_root_dedup (fs : FS) (base x : String)
    (hp : (fs.pubRoot.map Prod.fst).Nodup) (hq : (fs.privRoot.map Prod.fst).Nodup)
    (hx1 : folderHas fs.pubRoot x = true) (hx2 : folderHas fs.privRoot x = true) :
    ∃ r, listRoot fs base = .ok r
      ∧ (r.folders.filter (fun g => g.name == x)).length = 1
      ∧ FolderInfo.mk x Vis.exposed (some (buildPublicUrl base x none)) ∈ r.folders
      ∧ (∀ g ∈ r.folders, g.name = x →
          g = FolderInfo.mk x Vis.exposed (some (buildPublicUrl base x none)))
      ∧ (∀ nm : String,
          (folderHas fs.pubRoot nm || folderHas fs.privRoot nm) = true →
          hasName r.folders nm = true)
      ∧ (∀ g ∈ r.folders,
          (g.visibility = Vis.exposed ∧ folderHas fs.pubRoot g.name = true
            ∧ g.url = some (buildPublicUrl base g.name none))
          ∨ (g.visibility = Vis.hidden ∧ folderHas fs.privRoot g.name = true
            ∧ g.url = none)) := by
  have hPn : ((fs.pubRoot.map (fun p => FolderInfo.mk p.1 Vis.exposed
      (some (buildPublicUrl base p.1 none)))).map FolderInfo.name).Nodup := by
    rw [List.map_map]; exact hp
  have hQn : ((fs.privRoot.map (fun p => FolderInfo.mk p.1 Vis.hidden none)).map
      FolderInfo.name).Nodup := by
    rw [List.map_map]; exact hq
  have hFsub : ((fs.privRoot.map (fun p => FolderInfo.mk p.1 Vis.hidden none)).filter
        (fun g => !hasName (fs.pubRoot.map (fun p => FolderInfo.mk p.1 Vis.exposed
          (some (buildPublicUrl base p.1 none)))) g.name)).Sublist
      (fs.privRoot.map (fun p => FolderInfo.mk p.1 Vis.hidden none)) :=
    List.filter_sublist _
  have hFn : (((fs.privRoot.map (fun p => FolderInfo.mk p.1 Vis.hidden none)).filter
        (fun g => !hasName (fs.pubRoot.map (fun p => FolderInfo.mk p.1 Vis.exposed
          (some (buildPublicUrl base p.1 none)))) g.name)).map FolderInfo.name).Nodup :=
    hQn.sublist (hFsub.map _)
  have hdisj : ((fs.pubRoot.map (fun p => FolderInfo.mk p.1 Vis.exposed
        (some (buildPublicUrl base p.1 none)))).map FolderInfo.name).Disjoint
      (((fs.privRoot.map (fun p => FolderInfo.mk p.1 Vis.hidden none)).filter
        (fun g => !hasName (fs.pubRoot.map (fun p => FolderInfo.mk p.1 Vis.exposed
          (some (buildPublicUrl base p.1 none)))) g.name)).map FolderInfo.name) := by
    intro a haP haF
    rcases List.mem_map.mp haF with ⟨g, hgF, rfl⟩
    have hpred := (List.mem_filter.mp hgF).2
    have hPa : hasName (fs.pubRoot.map (fun p => FolderInfo.mk p.1 Vis.exposed
        (some (buildPublicUrl base p.1 none)))) g.name = true := by
      apply hasName_iff.mpr
      rcases List.mem_map.mp haP with ⟨g2, hg2, he⟩
      exact ⟨g2, hg2, he⟩
    rw [hPa] at hpred
    cases hpred
  have hallnd : (((fs.pubRoot.map (fun p => FolderInfo.mk p.1 Vis.exposed
        (some (buildPublicUrl base p.1 none))))
      ++ (fs.privRoot.map (fun p => FolderInfo.mk p.1 Vis.hidden none)).filter
        (fun g => !hasName (fs.pubRoot.map (fun p => FolderInfo.mk p.1 Vis.exposed
          (some (buildPublicUrl base p.1 none)))) g.name)).map FolderInfo.name).Nodup := by
    rw [List.map_append, List.nodup_append]
    exact ⟨hPn, hFn, hdisj⟩
  rcases folderHas_exists hx1 with ⟨dx, hdx⟩
  have hmemP : FolderInfo.mk x Vis.exposed (some (buildPublicUrl base x none))
      ∈ fs.pubRoot.map (fun p => FolderInfo.mk p.1 Vis.exposed
        (some (buildPublicUrl base p.1 none))) :=
    List.mem_map_of_mem _ (alGet_mem hdx)
  have hPx : hasName (fs.pubRoot.map (fun p => FolderInfo.mk p.1 Vis.exposed
      (some (buildPublicUrl base p.1 none)))) x = true :=
    hasName_iff.mpr ⟨_, hmemP, rfl⟩
  refine ⟨_, listRoot_eq fs base hp hq, ?_, ?_, ?_, ?_, ?_⟩
  · exact filter_name_length_one _ hallnd ⟨_, List.mem_append_left _ hmemP, rfl⟩
  · exact List.mem_append_left _ hmemP
  · intro g hg hgx
    rcases List.mem_append.mp hg with hgP | hgF
    · rcases List.mem_map.mp hgP with ⟨p, hp2, rfl⟩
      have : p.1 = x := hgx
      rw [this]
    · exfalso
      have hpred := (List.mem_filter.mp hgF).2
      rw [hgx, hPx] at hpred
      cases hpred
  · intro nm hnm
    rw [hasName_append]
    cases hpub : folderHas fs.pubRoot nm with
    | true =>
      rcases folderHas_exists hpub with ⟨d, hd⟩
      have hmem2 : FolderInfo.mk nm Vis.exposed (some (buildPublicUrl base nm none))
          ∈ fs.pubRoot.map (fun p => FolderInfo.mk p.1 Vis.exposed
            (some (buildPublicUrl base p.1 none))) :=
        List.mem_map_of_mem _ (alGet_mem hd)
      rw [hasName_iff.mpr ⟨_, hmem2, rfl⟩]
      rfl
    | false =>
      have hpriv : folderHas fs.privRoot nm = true := by
        rw [hpub] at hnm; simpa using hnm
      rcases folderHas_exists hpriv with ⟨d, hd⟩
      have hgQ : FolderInfo.mk nm Vis.hidden none
          ∈ fs.privRoot.map (fun p => FolderInfo.mk p.1 Vis.hidden none) :=
        List.mem_map_of_mem _ (alGet_mem hd)
      cases hPnm : hasName (fs.pubRoot.map (fun p => FolderInfo.mk p.1 Vis.exposed
          (some (buildPublicUrl base p.1 none)))) nm with
      | true => rfl
      | false =>
        have hgF : FolderInfo.mk nm Vis.hidden none
            ∈ (fs.privRoot.map (fun p => FolderInfo.mk p.1 Vis.hidden none)).filter
              (fun g => !hasName (fs.pubRoot.map (fun p => FolderInfo.mk p.1 Vis.exposed
                (some (buildPublicUrl base p.1 none)))) g.name) := by
          rw [List.mem_filter]
          exact ⟨hgQ, by rw [hPnm]; rfl⟩
        rw [hasName_iff.mpr ⟨_, hgF, rfl⟩]
        simp
  · intro g hg
    rcases List.mem_append.mp hg with hgP | hgF
    · rcases List.mem_map.mp hgP with ⟨p, hp2, rfl⟩
      left
      exact ⟨rfl, folderHas_of_name_mem (List.mem_map_of_mem Prod.fst hp2), rfl⟩
    · have hgQ := (List.mem_filter.mp hgF).1
      rcases List.mem_map.mp hgQ with ⟨p, hp2, rfl⟩
      right
      exact ⟨rfl, folderHas_of_name_mem (List.mem_map_of_mem Prod.fst hp2), rfl⟩

theorem list_root_dedup_witness :
    let fs0 : FS := ⟨[("docs", [("a.txt", [1])]), ("imgs", [])],
                     [("docs", [("a.txt", [2])]), ("priv", [])]⟩
    ∃ r, listRoot fs0 "B" = .ok r
      ∧ (r.folders.filter (fun g => g.name == "docs")).length = 1
      ∧ FolderInfo.mk "docs" Vis.exposed (some (buildPublicUrl "B" "docs" none))
          ∈ r.folders
      ∧ (∀ g ∈ r.folders, g.name = "docs" →
          g = FolderInfo.mk "docs" Vis.exposed (some (buildPublicUrl "B" "docs" none)))
      ∧ (∀ nm : String,
          (folderHas fs0.pubRoot nm || folderHas fs0.privRoot nm) = true →
          hasName r.folders nm = true)
      ∧ (∀ g ∈ r.folders,
          (g.visibility = Vis.exposed ∧ folderHas fs0.pubRoot g.name = true
            ∧ g.url = some (buildPublicUrl "B" g.name none))
          ∨ (g.visibility = Vis.hidden ∧ folderHas fs0.privRoot g.name = true
            ∧ g.url = none)) :=
  list_root_dedup
    ⟨[("docs", [("a.txt", [1])]), ("imgs", [])],
     [("docs", [("a.txt", [2])]), ("priv", [])]⟩ "B" "docs"
    (by decide) (by decide) (by decide) (by decide)

end FileApi
